import Mathlib

/-!
Verification of `src/resources/assets/uad_edit.py` from
universal-android-debloater-next-generation.

The script loads a JSON document mapping application identifiers to
application records, deletes the fields `neededBy`, `labels` and
`dependencies` from each record, remaps the value of the `removal` field
(`"Recommended"` becomes `"Safe"`, `"Expert"` becomes `"Disruptive"`),
and serializes the result to a new file.

Python dictionaries are insertion-ordered maps, embedded here as
association lists; `del` removes the (unique) binding of a key keeping
the order of the others, and assignment to an existing key overwrites
its value in place.
-/

/-- A JSON value, as produced by `json.load`. -/
inductive JValue where
  | null : JValue
  | bool : Bool → JValue
  | num : Int → JValue
  | str : String → JValue
  | arr : List JValue → JValue
  | obj : List (String × JValue) → JValue
deriving Repr

/-- One application's field mapping (a Python dict, insertion ordered). -/
abbrev AppRecord := List (String × JValue)

/-- The full parsed document: application identifier to record. -/
abbrev Document := List (String × AppRecord)

/-- Python `app_data.get(k)`: the value bound to `k`, or `None`. -/
def getKey (k : String) : AppRecord → Option JValue
  | [] => none
  | (k', v) :: rest => if k' = k then some v else getKey k rest

/-- Python `del app_data[k]` guarded by `if k in app_data`: remove the
binding of `k` (a dict binds each key once), keeping the others in order.
On a record not containing `k` this is the identity, matching the guard. -/
def delKey (k : String) : AppRecord → AppRecord
  | [] => []
  | (k', v) :: rest => if k' = k then rest else (k', v) :: delKey k rest

/-- Python `app_data[k] = v`: overwrite the existing binding in place,
or append a new binding at the end. -/
def setKey (k : String) (v : JValue) : AppRecord → AppRecord
  | [] => [(k, v)]
  | (k', v') :: rest => if k' = k then (k, v) :: rest else (k', v') :: setKey k v rest

/-- Python `v == c` for a string literal `c`: true exactly when the
(optional) JSON value `v` is the string `c`. -/
def isStr (c : String) : Option JValue → Bool
  | some (.str s) => s = c
  | _ => false

/-- The body of the `for app_id, app_data in data.items()` loop: delete
`neededBy`, `labels`, `dependencies`, then remap `removal`. -/
def transformRecord (app_data : AppRecord) : AppRecord :=
  let r1 := delKey "neededBy" app_data
  let r2 := delKey "labels" r1
  let r3 := delKey "dependencies" r2
  let removal := getKey "removal" r3
  if isStr "Recommended" removal then
    setKey "removal" (.str "Safe") r3
  else if isStr "Expert" removal then
    setKey "removal" (.str "Disruptive") r3
  else
    r3

/-- The whole transformation of `uad_edit.py`: apply the loop body to
every record of the document, keeping the document's keys and order. -/
def uad_edit (data : Document) : Document :=
  data.map (fun p => (p.1, transformRecord p.2))

/-- A record is well formed when its keys are distinct, as is true of
every Python dict (and of every object produced by `json.load`). -/
def RecordWF (r : AppRecord) : Prop := (r.map Prod.fst).Nodup

instance (r : AppRecord) : Decidable (RecordWF r) := by
  unfold RecordWF; infer_instance

/-- A document is well formed when each of its records is. -/
def DocWF (d : Document) : Prop := ∀ p ∈ d, RecordWF p.2

instance (d : Document) : Decidable (DocWF d) := by
  unfold DocWF; exact List.decidableBAll _ d

/-- The remapping performed on the (optional) `removal` value. -/
def remapRemoval (v : Option JValue) : Option JValue :=
  if isStr "Recommended" v then some (.str "Safe")
  else if isStr "Expert" v then some (.str "Disruptive")
  else v

/-! ### The run model

The script has no error handling of its own: it opens and parses the
input, runs the loop, then opens and writes the output.  `open`/`json.load`
raise `IOError`/`ParseError` which propagate uncaught to the process.  The
surrounding I/O skeleton is embedded here with the input file contents as
an `Option String` (`none` for an absent/unreadable file), the JSON
decoder as an abstract function `parse` (the script calls the library
`json.load`, it does not implement parsing), and a flag saying whether
the output path is writable. -/

/-- The two error classes the script can die with. -/
inductive ScriptError where
  | parseError : ScriptError
  | ioError : ScriptError
deriving DecidableEq, Repr

/-- Outcome of a run: the uncaught error, if any, and the contents of the
output file, `none` when it was never created. -/
structure RunResult where
  error : Option ScriptError
  outputFile : Option Document
deriving Repr

/-- The whole script: read `uad_lists2.json`, decode it, transform it,
write `uad_listNew.json`.  Each step runs only if the previous one
succeeded; no error is caught or retried. -/
def runScript (parse : String → Option Document) (input : Option String)
    (outWritable : Bool) : RunResult :=
  match input with
  | none => ⟨some .ioError, none⟩
  | some s =>
    match parse s with
    | none => ⟨some .parseError, none⟩
    | some d =>
      if outWritable then ⟨none, some (uad_edit d)⟩
      else ⟨some .ioError, none⟩

/-! ### Lemmas about the association-list operations -/

example : transformRecord [("removal", .str "Recommended"), ("labels", .arr [.str "x"]), ("other", .num 1)]
    = [("removal", .str "Safe"), ("other", .num 1)] := by rfl

example : transformRecord [("removal", .str "Expert"), ("dependencies", .arr [])]
    = [("removal", .str "Disruptive")] := by rfl

example : transformRecord [("removal", .str "Unknown")] = [("removal", .str "Unknown")] := by rfl

theorem isStr_eq_true_iff (c : String) (v : Option JValue) :
    isStr c v = true ↔ v = some (.str c) := by
  cases v with
  | none => simp [isStr]
  | some j => cases j <;> simp [isStr]

theorem getKey_delKey_ne (k k' : String) (h : k ≠ k') (r : AppRecord) :
    getKey k (delKey k' r) = getKey k r := by
  induction r with
  | nil => rfl
  | cons p rest ih =>
    obtain ⟨a, v⟩ := p
    by_cases ha : a = k'
    · subst ha
      simp [delKey, getKey, Ne.symm h]
    · simp [delKey, getKey, ha, ih]

theorem getKey_setKey_self (k : String) (v : JValue) (r : AppRecord) :
    getKey k (setKey k v r) = some v := by
  induction r with
  | nil => simp [setKey, getKey]
  | cons p rest ih =>
    obtain ⟨a, w⟩ := p
    by_cases ha : a = k
    · simp [setKey, getKey, ha]
    · simp [setKey, getKey, ha, ih]

theorem getKey_setKey_ne (k k' : String) (h : k ≠ k') (v : JValue) (r : AppRecord) :
    getKey k (setKey k' v r) = getKey k r := by
  induction r with
  | nil => simp [setKey, getKey, Ne.symm h]
  | cons p rest ih =>
    obtain ⟨a, w⟩ := p
    by_cases ha : a = k'
    · subst ha
      simp [setKey, getKey, Ne.symm h]
    · simp [setKey, getKey, ha, ih]

theorem getKey_eq_none_iff (k : String) (r : AppRecord) :
    getKey k r = none ↔ k ∉ r.map Prod.fst := by
  induction r with
  | nil => simp [getKey]
  | cons p rest ih =>
    obtain ⟨a, v⟩ := p
    by_cases ha : a = k
    · simp [getKey, ha]
    · simp [getKey, ha, ih, Ne.symm ha]

theorem delKey_of_not_mem (k : String) (r : AppRecord)
    (h : getKey k r = none) : delKey k r = r := by
  induction r with
  | nil => rfl
  | cons p rest ih =>
    obtain ⟨a, v⟩ := p
    by_cases ha : a = k
    · simp [getKey, ha] at h
    · simp [getKey, ha] at h
      simp [delKey, ha, ih h]

theorem delKey_sublist (k : String) (r : AppRecord) :
    (delKey k r).Sublist r := by
  induction r with
  | nil => simp [delKey]
  | cons p rest ih =>
    obtain ⟨a, v⟩ := p
    by_cases ha : a = k
    · simp only [delKey, if_pos ha]
      exact List.sublist_cons_self _ _
    · simp only [delKey, if_neg ha]
      exact ih.cons₂ _

theorem recordWF_delKey (k : String) (r : AppRecord) (h : RecordWF r) :
    RecordWF (delKey k r) := by
  exact List.Nodup.sublist (List.Sublist.map Prod.fst (delKey_sublist k r)) h

theorem getKey_delKey_self (k : String) (r : AppRecord) (h : RecordWF r) :
    getKey k (delKey k r) = none := by
  induction r with
  | nil => rfl
  | cons p rest ih =>
    obtain ⟨a, v⟩ := p
    unfold RecordWF at h
    simp only [List.map_cons, List.nodup_cons] at h
    by_cases ha : a = k
    · subst ha
      simp [delKey]
      exact (getKey_eq_none_iff a rest).mpr h.1
    · simp [delKey, getKey, ha]
      exact ih h.2

theorem keys_setKey_of_mem (k : String) (v : JValue) (r : AppRecord)
    (h : getKey k r ≠ none) :
    (setKey k v r).map Prod.fst = r.map Prod.fst := by
  induction r with
  | nil => simp [getKey] at h
  | cons p rest ih =>
    obtain ⟨a, w⟩ := p
    by_cases ha : a = k
    · simp [setKey, ha]
    · simp [getKey, ha] at h
      simp [setKey, ha, ih h]

theorem keys_delKey_of_nodup (k : String) (r : AppRecord) (h : RecordWF r) :
    (delKey k r).map Prod.fst = (r.map Prod.fst).filter (fun a => a != k) := by
  induction r with
  | nil => rfl
  | cons p rest ih =>
    obtain ⟨a, v⟩ := p
    unfold RecordWF at h
    simp only [List.map_cons, List.nodup_cons] at h
    by_cases ha : a = k
    · subst ha
      simp only [delKey, if_pos rfl, List.map_cons, List.filter_cons,
        bne_self_eq_false, Bool.false_eq_true, if_false]
      refine (List.filter_eq_self.mpr ?_).symm
      intro b hb
      simp only [bne_iff_ne, ne_eq]
      exact fun hba => h.1 (hba ▸ hb)
    · have hbne : (a != k) = true := by simp [bne_iff_ne, ha]
      simp only [delKey, if_neg ha, List.map_cons, List.filter_cons, hbne, if_true]
      simp [ih h.2]

/-! ### Lemmas about the record transformation -/

theorem getKey_removal_del3 (r : AppRecord) :
    getKey "removal" (delKey "dependencies" (delKey "labels" (delKey "neededBy" r)))
      = getKey "removal" r := by
  rw [getKey_delKey_ne "removal" "dependencies" (by decide),
    getKey_delKey_ne "removal" "labels" (by decide),
    getKey_delKey_ne "removal" "neededBy" (by decide)]

theorem getKey_removal_transformRecord (r : AppRecord) :
    getKey "removal" (transformRecord r) = remapRemoval (getKey "removal" r) := by
  simp only [transformRecord, remapRemoval, getKey_removal_del3]
  split
  · exact getKey_setKey_self _ _ _
  · split
    · exact getKey_setKey_self _ _ _
    · exact getKey_removal_del3 r

theorem getKey_transformRecord_of_ne_removal (k : String) (h4 : k ≠ "removal")
    (r : AppRecord) :
    getKey k (transformRecord r)
      = getKey k (delKey "dependencies" (delKey "labels" (delKey "neededBy" r))) := by
  simp only [transformRecord]
  split
  · exact getKey_setKey_ne k "removal" h4 _ _
  · split
    · exact getKey_setKey_ne k "removal" h4 _ _
    · rfl

theorem getKey_neededBy_transformRecord (r : AppRecord) (h : RecordWF r) :
    getKey "neededBy" (transformRecord r) = none := by
  rw [getKey_transformRecord_of_ne_removal "neededBy" (by decide),
    getKey_delKey_ne "neededBy" "dependencies" (by decide),
    getKey_delKey_ne "neededBy" "labels" (by decide)]
  exact getKey_delKey_self _ _ h

theorem getKey_labels_transformRecord (r : AppRecord) (h : RecordWF r) :
    getKey "labels" (transformRecord r) = none := by
  rw [getKey_transformRecord_of_ne_removal "labels" (by decide),
    getKey_delKey_ne "labels" "dependencies" (by decide)]
  exact getKey_delKey_self _ _ (recordWF_delKey _ _ h)

theorem getKey_dependencies_transformRecord (r : AppRecord) (h : RecordWF r) :
    getKey "dependencies" (transformRecord r) = none := by
  rw [getKey_transformRecord_of_ne_removal "dependencies" (by decide)]
  exact getKey_delKey_self _ _ (recordWF_delKey _ _ (recordWF_delKey _ _ h))

theorem isStr_remapRemoval_false (v : Option JValue) :
    isStr "Recommended" (remapRemoval v) = false ∧
    isStr "Expert" (remapRemoval v) = false := by
  unfold remapRemoval
  by_cases h1 : isStr "Recommended" v
  · rw [if_pos h1]
    exact ⟨by decide, by decide⟩
  · rw [if_neg h1]
    by_cases h2 : isStr "Expert" v
    · rw [if_pos h2]
      exact ⟨by decide, by decide⟩
    · rw [if_neg h2]
      rw [Bool.not_eq_true] at h1 h2
      exact ⟨h1, h2⟩

theorem remapRemoval_ne_legacy (v : Option JValue) :
    remapRemoval v ≠ some (JValue.str "Recommended") ∧
    remapRemoval v ≠ some (JValue.str "Expert") := by
  have h := isStr_remapRemoval_false v
  constructor
  · intro he
    rw [← isStr_eq_true_iff] at he
    rw [h.1] at he
    cases he
  · intro he
    rw [← isStr_eq_true_iff] at he
    rw [h.2] at he
    cases he

theorem transformRecord_idem (r : AppRecord) (h : RecordWF r) :
    transformRecord (transformRecord r) = transformRecord r := by
  set t := transformRecord r with ht
  have e1 : delKey "neededBy" t = t :=
    delKey_of_not_mem _ _ (getKey_neededBy_transformRecord r h)
  have e2 : delKey "labels" t = t :=
    delKey_of_not_mem _ _ (getKey_labels_transformRecord r h)
  have e3 : delKey "dependencies" t = t :=
    delKey_of_not_mem _ _ (getKey_dependencies_transformRecord r h)
  have hrem : getKey "removal" t = remapRemoval (getKey "removal" r) := by
    rw [ht]
    exact getKey_removal_transformRecord r
  have hfix := isStr_remapRemoval_false (getKey "removal" r)
  simp only [transformRecord, e1, e2, e3, hrem, hfix.1, hfix.2, Bool.false_eq_true,
    if_false]

theorem keys_del3_of_nodup (r : AppRecord) (h : RecordWF r) :
    (delKey "dependencies" (delKey "labels" (delKey "neededBy" r))).map Prod.fst
      = (r.map Prod.fst).filter
          (fun a => a != "neededBy" && a != "labels" && a != "dependencies") := by
  have h1 : RecordWF (delKey "neededBy" r) := recordWF_delKey _ _ h
  have h2 : RecordWF (delKey "labels" (delKey "neededBy" r)) := recordWF_delKey _ _ h1
  rw [keys_delKey_of_nodup _ _ h2, keys_delKey_of_nodup _ _ h1,
    keys_delKey_of_nodup _ _ h, List.filter_filter, List.filter_filter]
  refine List.filter_congr ?_
  intro a _
  cases hn : a != "neededBy" <;> cases hl : a != "labels" <;>
    cases hd : a != "dependencies" <;> simp [hn, hl, hd]

/-! ### Claim theorems -/

/-- Claim C1: for every document and every record in it, if the record's
`removal` field is the string "Recommended" the transformed record's
`removal` field is "Safe", and if it is "Expert" it becomes "Disruptive";
the transformed record is the one stored for the same key in the output
document. -/
theorem c1_removal_remapped (d : Document) (k : String) (r : AppRecord)
    (hmem : (k, r) ∈ d) :
    (k, transformRecord r) ∈ uad_edit d ∧
    (getKey "removal" r = some (JValue.str "Recommended") →
      getKey "removal" (transformRecord r) = some (JValue.str "Safe")) ∧
    (getKey "removal" r = some (JValue.str "Expert") →
      getKey "removal" (transformRecord r) = some (JValue.str "Disruptive")) := by
  refine ⟨List.mem_map.mpr ⟨(k, r), hmem, rfl⟩, ?_, ?_⟩
  · intro hrec
    rw [getKey_removal_transformRecord, hrec]
    unfold remapRemoval
    rw [if_pos (by decide)]
  · intro hexp
    rw [getKey_removal_transformRecord, hexp]
    unfold remapRemoval
    rw [if_neg (by decide), if_pos (by decide)]

/-- Witness for C1 at a concrete one-record document. -/
theorem c1_removal_remapped_witness :
    ("app.id", transformRecord [("removal", JValue.str "Recommended")]) ∈
        uad_edit [("app.id", [("removal", JValue.str "Recommended")])] ∧
    (getKey "removal" [("removal", JValue.str "Recommended")]
        = some (JValue.str "Recommended") →
      getKey "removal" (transformRecord [("removal", JValue.str "Recommended")])
        = some (JValue.str "Safe")) ∧
    (getKey "removal" [("removal", JValue.str "Recommended")]
        = some (JValue.str "Expert") →
      getKey "removal" (transformRecord [("removal", JValue.str "Recommended")])
        = some (JValue.str "Disruptive")) :=
  c1_removal_remapped _ "app.id" _ (List.mem_singleton.mpr rfl)

/-- Claim C2: for every well-formed document (each record binds its keys
at most once, as every Python dict does) and every record in it, the
transformed record contains none of the keys `neededBy`, `labels`,
`dependencies`. -/
theorem c2_junk_fields_deleted (d : Document) (k : String) (r : AppRecord)
    (hwf : DocWF d) (hmem : (k, r) ∈ d) :
    (k, transformRecord r) ∈ uad_edit d ∧
    "neededBy" ∉ (transformRecord r).map Prod.fst ∧
    "labels" ∉ (transformRecord r).map Prod.fst ∧
    "dependencies" ∉ (transformRecord r).map Prod.fst := by
  have hr : RecordWF r := hwf (k, r) hmem
  refine ⟨List.mem_map.mpr ⟨(k, r), hmem, rfl⟩, ?_, ?_, ?_⟩
  · exact (getKey_eq_none_iff _ _).mp (getKey_neededBy_transformRecord r hr)
  · exact (getKey_eq_none_iff _ _).mp (getKey_labels_transformRecord r hr)
  · exact (getKey_eq_none_iff _ _).mp (getKey_dependencies_transformRecord r hr)

/-- Witness for C2 at a concrete document whose record has all three
junk fields. -/
theorem c2_junk_fields_deleted_witness :
    ("app.id", transformRecord [("neededBy", JValue.null), ("labels", JValue.arr []),
        ("dependencies", JValue.null), ("other", JValue.num 1)]) ∈
      uad_edit [("app.id", [("neededBy", JValue.null), ("labels", JValue.arr []),
        ("dependencies", JValue.null), ("other", JValue.num 1)])] ∧
    "neededBy" ∉ (transformRecord [("neededBy", JValue.null), ("labels", JValue.arr []),
        ("dependencies", JValue.null), ("other", JValue.num 1)]).map Prod.fst ∧
    "labels" ∉ (transformRecord [("neededBy", JValue.null), ("labels", JValue.arr []),
        ("dependencies", JValue.null), ("other", JValue.num 1)]).map Prod.fst ∧
    "dependencies" ∉ (transformRecord [("neededBy", JValue.null), ("labels", JValue.arr []),
        ("dependencies", JValue.null), ("other", JValue.num 1)]).map Prod.fst :=
  c2_junk_fields_deleted _ "app.id" _ (by decide) (List.mem_singleton.mpr rfl)

/-- Claim C3: a record whose `removal` field is absent, or holds any value
other than the strings "Recommended" and "Expert", keeps its `removal`
field (respectively its absence) unchanged; no field is created. -/
theorem c3_removal_otherwise_unchanged (r : AppRecord)
    (h1 : getKey "removal" r ≠ some (JValue.str "Recommended"))
    (h2 : getKey "removal" r ≠ some (JValue.str "Expert")) :
    getKey "removal" (transformRecord r) = getKey "removal" r := by
  rw [getKey_removal_transformRecord]
  unfold remapRemoval
  have b1 : isStr "Recommended" (getKey "removal" r) = false := by
    rw [Bool.eq_false_iff]
    intro hb
    exact h1 ((isStr_eq_true_iff _ _).mp hb)
  have b2 : isStr "Expert" (getKey "removal" r) = false := by
    rw [Bool.eq_false_iff]
    intro hb
    exact h2 ((isStr_eq_true_iff _ _).mp hb)
  rw [if_neg (by simp [b1]), if_neg (by simp [b2])]

/-- Witness for C3 at a record whose `removal` value is neither
"Recommended" nor "Expert". -/
theorem c3_removal_otherwise_unchanged_witness :
    getKey "removal" [("removal", JValue.str "Unknown")] ≠ some (JValue.str "Recommended") ∧
    getKey "removal" [("removal", JValue.str "Unknown")] ≠ some (JValue.str "Expert") ∧
    getKey "removal" (transformRecord [("removal", JValue.str "Unknown")])
      = getKey "removal" [("removal", JValue.str "Unknown")] := by
  have h1 : getKey "removal" [("removal", JValue.str "Unknown")]
      ≠ some (JValue.str "Recommended") := by
    intro h
    have := (isStr_eq_true_iff "Recommended"
      (getKey "removal" [("removal", JValue.str "Unknown")])).mpr h
    exact absurd this (by decide)
  have h2 : getKey "removal" [("removal", JValue.str "Unknown")]
      ≠ some (JValue.str "Expert") := by
    intro h
    have := (isStr_eq_true_iff "Expert"
      (getKey "removal" [("removal", JValue.str "Unknown")])).mpr h
    exact absurd this (by decide)
  exact ⟨h1, h2, c3_removal_otherwise_unchanged _ h1 h2⟩

/-- Claim C4: every field of a record other than `neededBy`, `labels`,
`dependencies` and `removal` appears in the transformed record with
exactly its original value. -/
theorem c4_other_fields_untouched (r : AppRecord) (k : String)
    (h1 : k ≠ "neededBy") (h2 : k ≠ "labels") (h3 : k ≠ "dependencies")
    (h4 : k ≠ "removal") :
    getKey k (transformRecord r) = getKey k r := by
  rw [getKey_transformRecord_of_ne_removal k h4,
    getKey_delKey_ne k "dependencies" h3,
    getKey_delKey_ne k "labels" h2,
    getKey_delKey_ne k "neededBy" h1]

/-- Witness for C4 at the field "description" of a concrete record. -/
theorem c4_other_fields_untouched_witness :
    getKey "description" (transformRecord
        [("description", JValue.str "d"), ("removal", JValue.str "Recommended")])
      = getKey "description"
        [("description", JValue.str "d"), ("removal", JValue.str "Recommended")] :=
  c4_other_fields_untouched _ "description" (by decide) (by decide) (by decide)
    (by decide)

/-- Claim C5: the output document has exactly the input document's keys,
in the same order; the transformation adds, removes and reorders no
document-level key. -/
theorem c5_document_keys_preserved (d : Document) :
    (uad_edit d).map Prod.fst = d.map Prod.fst := by
  simp [uad_edit]

/-- Claim C6: the transformation is idempotent on well-formed documents:
transforming the output again changes nothing. -/
theorem c6_idempotent (d : Document) (h : DocWF d) :
    uad_edit (uad_edit d) = uad_edit d := by
  unfold uad_edit
  rw [List.map_map]
  refine List.map_congr_left ?_
  intro p hp
  simp only [Function.comp_apply]
  rw [transformRecord_idem p.2 (h p hp)]

/-- Witness for C6 at a concrete document. -/
theorem c6_idempotent_witness :
    DocWF [("app.id", [("removal", JValue.str "Recommended"),
        ("labels", JValue.arr []), ("other", JValue.num 1)])] ∧
    uad_edit (uad_edit [("app.id", [("removal", JValue.str "Recommended"),
        ("labels", JValue.arr []), ("other", JValue.num 1)])])
      = uad_edit [("app.id", [("removal", JValue.str "Recommended"),
        ("labels", JValue.arr []), ("other", JValue.num 1)])] :=
  ⟨by decide, c6_idempotent _ (by decide)⟩

/-- Claim C7: the run fails with a ParseError exactly when the input file
exists but its contents do not decode, with an IOError exactly when the
input file is absent/unreadable or when the (decoded) run reaches an
unwritable output path; it succeeds exactly on the remaining runs, where
the output file holds the transformed document; and on the parse/read
errors the output file is not created.  Errors are never caught: the
result carries exactly the first error encountered. -/
theorem c7_error_propagation (parse : String → Option Document)
    (input : Option String) (w : Bool) :
    ((runScript parse input w).error = some ScriptError.parseError ↔
      ∃ s, input = some s ∧ parse s = none) ∧
    ((runScript parse input w).error = some ScriptError.ioError ↔
      (input = none ∨ ∃ s d, input = some s ∧ parse s = some d ∧ w = false)) ∧
    ((runScript parse input w).error = none ↔
      ∃ s d, input = some s ∧ parse s = some d ∧ w = true ∧
        (runScript parse input w).outputFile = some (uad_edit d)) ∧
    (((runScript parse input w).error = some ScriptError.parseError ∨ input = none) →
      (runScript parse input w).outputFile = none) := by
  cases input with
  | none => simp [runScript]
  | some s =>
    cases hp : parse s with
    | none => simp [runScript, hp]
    | some d =>
      cases w with
      | false => simp [runScript, hp]
      | true => simp [runScript, hp]

/-- Witness for C7 at a concrete decoder, input and writable output. -/
theorem c7_error_propagation_witness :
    ((runScript (fun _ => some []) (some "x") true).error = some ScriptError.parseError ↔
      ∃ s, some "x" = some s ∧ (fun _ : String => some ([] : Document)) s = none) ∧
    ((runScript (fun _ => some []) (some "x") true).error = some ScriptError.ioError ↔
      (some "x" = none ∨ ∃ s d, some "x" = some s ∧
        (fun _ : String => some ([] : Document)) s = some d ∧ true = false)) ∧
    ((runScript (fun _ => some []) (some "x") true).error = none ↔
      ∃ s d, some "x" = some s ∧ (fun _ : String => some ([] : Document)) s = some d ∧
        true = true ∧
        (runScript (fun _ => some []) (some "x") true).outputFile = some (uad_edit d)) ∧
    (((runScript (fun _ => some []) (some "x") true).error = some ScriptError.parseError ∨
        (some "x" : Option String) = none) →
      (runScript (fun _ => some []) (some "x") true).outputFile = none) :=
  c7_error_propagation (fun _ => some []) (some "x") true

/-- Claim C8: in a well-formed record, the fields surviving the
transformation keep their relative order: the transformed record's key
sequence is the input's key sequence with `neededBy`, `labels` and
`dependencies` filtered out, so a remapped `removal` stays at its
original position. -/
theorem c8_field_order_preserved (r : AppRecord) (h : RecordWF r) :
    (transformRecord r).map Prod.fst =
      (r.map Prod.fst).filter
        (fun a => a != "neededBy" && a != "labels" && a != "dependencies") := by
  have hk3 := keys_del3_of_nodup r h
  simp only [transformRecord]
  split
  next hcond =>
    have hne : getKey "removal"
        (delKey "dependencies" (delKey "labels" (delKey "neededBy" r))) ≠ none := by
      rw [(isStr_eq_true_iff _ _).mp hcond]
      simp
    rw [keys_setKey_of_mem _ _ _ hne, hk3]
  next =>
    split
    next hcond2 =>
      have hne : getKey "removal"
          (delKey "dependencies" (delKey "labels" (delKey "neededBy" r))) ≠ none := by
        rw [(isStr_eq_true_iff _ _).mp hcond2]
        simp
      rw [keys_setKey_of_mem _ _ _ hne, hk3]
    next => exact hk3

/-- Witness for C8 at a concrete record mixing deleted, remapped and
kept fields. -/
theorem c8_field_order_preserved_witness :
    RecordWF [("neededBy", JValue.null), ("removal", JValue.str "Expert"),
        ("other", JValue.num 1)] ∧
    (transformRecord [("neededBy", JValue.null), ("removal", JValue.str "Expert"),
        ("other", JValue.num 1)]).map Prod.fst =
      (([("neededBy", JValue.null), ("removal", JValue.str "Expert"),
        ("other", JValue.num 1)] : AppRecord).map Prod.fst).filter
        (fun a => a != "neededBy" && a != "labels" && a != "dependencies") :=
  ⟨by decide, c8_field_order_preserved _ (by decide)⟩

/-- Claim C9: no record of the output document has a `removal` field equal
to the string "Recommended" or the string "Expert". -/
theorem c9_no_legacy_removal (d : Document) (k : String) (r' : AppRecord)
    (hmem : (k, r') ∈ uad_edit d) :
    getKey "removal" r' ≠ some (JValue.str "Recommended") ∧
    getKey "removal" r' ≠ some (JValue.str "Expert") := by
  obtain ⟨p, hp, heq⟩ := List.mem_map.mp hmem
  have hr : transformRecord p.2 = r' := congrArg Prod.snd heq
  subst hr
  rw [getKey_removal_transformRecord]
  exact remapRemoval_ne_legacy _

/-- Witness for C9 at a concrete output record. -/
theorem c9_no_legacy_removal_witness :
    ("a", transformRecord [("removal", JValue.str "Recommended")]) ∈
      uad_edit [("a", [("removal", JValue.str "Recommended")])] ∧
    getKey "removal" (transformRecord [("removal", JValue.str "Recommended")])
      ≠ some (JValue.str "Recommended") ∧
    getKey "removal" (transformRecord [("removal", JValue.str "Recommended")])
      ≠ some (JValue.str "Expert") :=
  ⟨List.mem_singleton.mpr rfl,
    c9_no_legacy_removal [("a", [("removal", JValue.str "Recommended")])] "a"
      (transformRecord [("removal", JValue.str "Recommended")])
      (List.mem_singleton.mpr rfl)⟩

/-- Claim C10: the transformation is a deterministic pure function of the
parsed document: equal inputs give equal outputs, and nothing else
influences the result. -/
theorem c10_deterministic (d1 d2 : Document) (h : d1 = d2) :
    uad_edit d1 = uad_edit d2 := by
  rw [h]

/-- Witness for C10 at a concrete document. -/
theorem c10_deterministic_witness :
    ([("app.id", [("removal", JValue.str "Expert")])] : Document)
      = [("app.id", [("removal", JValue.str "Expert")])] ∧
    uad_edit [("app.id", [("removal", JValue.str "Expert")])]
      = uad_edit [("app.id", [("removal", JValue.str "Expert")])] :=
  ⟨rfl, c10_deterministic _ _ rfl⟩
